import Mathlib

/-!
Verification of the content-gap-crew API server: a shallow embedding of the
plan assembler, memory-task injection, narration-stream parser, and the
conversation WebSocket session logic, with theorems settling the spec's
testable properties against the code.

Source files embedded:
  * `apps/api/app/services/crew_runner.py` (memory injection, narration parse,
    tool/agent building)
  * `apps/api/app/services/crew_planner.py` (plan validation)
  * `apps/api/app/routers/conversations.py` (session loop, replay, routing,
    questions)
-/

namespace ContentGapCrew

/-! ## String helpers mirroring the Python primitives used by the source -/

/-- Python `sub in hay` (contiguous substring test) on char lists. -/
def subOccurs (sub : List Char) : List Char → Bool
  | [] => sub.isEmpty
  | c :: t => sub.isPrefixOf (c :: t) || subOccurs sub t

/-- Python `sub in hay` on strings. -/
def strHasSub (hay sub : String) : Bool :=
  subOccurs sub.toList hay.toList

/-- Python `s.strip()` — trim surrounding whitespace. -/
def pyStrip (s : String) : String :=
  String.mk (((s.toList.dropWhile Char.isWhitespace).reverse.dropWhile
    Char.isWhitespace).reverse)

/-- Python `s.lower()`. -/
def pyLower (s : String) : String := String.mk (s.toList.map Char.toLower)

/-- Python `s.startswith(pre)`. -/
def strStarts (s pre : String) : Bool := pre.toList.isPrefixOf s.toList

/-- Fuel-driven body of `pyReplace` (the fuel is the input length, which
always suffices since each step consumes at least one character). -/
def replaceGo (pat rep : List Char) : Nat → List Char → List Char
  | _, [] => []
  | 0, l => l
  | fuel + 1, c :: rest =>
    if !pat.isEmpty && pat.isPrefixOf (c :: rest) then
      rep ++ replaceGo pat rep fuel ((c :: rest).drop pat.length)
    else c :: replaceGo pat rep fuel rest

/-- Python `s.replace(pat, rep)` for the nonempty patterns the source uses:
replace every non-overlapping occurrence, left to right. -/
def pyReplace (s pat rep : String) : String :=
  String.mk (replaceGo pat.toList rep.toList s.toList.length s.toList)

/-- Python `sep.join(parts)`. -/
def joinWith (sep : String) : List String → String
  | [] => ""
  | [x] => x
  | x :: rest => x ++ sep ++ joinWith sep rest

/-- Python `s.split(sep, 1)[1]` when `sep` occurs in `s`: the text after the
first occurrence of `sep`. Returns `none` when `sep` does not occur. -/
def afterFirst (sep : List Char) : List Char → Option (List Char)
  | [] => if sep.isEmpty then some [] else none
  | c :: t =>
    if sep.isPrefixOf (c :: t) then some ((c :: t).drop sep.length)
    else afterFirst sep t

def strAfterFirst (s sep : String) : Option String :=
  (afterFirst sep.toList s.toList).map (fun l => String.mk l)

/-! ## Memory injection (`CrewRunner._inject_memory_tasks`) -/

/-- A task dict as assembled by the conversation router and consumed by
`_inject_memory_tasks` / `_build_task`: `_id`, `name`, `description`,
`expectedOutput`, `agent._id`, `order`, `contextTasks` (list of `_id` refs). -/
structure TaskRec where
  id : String
  name : String
  description : String
  expectedOutput : String
  agentId : String
  order : Int
  contextTasks : List String
  deriving Repr, DecidableEq

/-- Stable insert for ascending `order`: a new task goes after all tasks whose
`order` is ≤ its own, matching Python's stable `sorted`. -/
def insertTask (x : TaskRec) : List TaskRec → List TaskRec
  | [] => [x]
  | y :: rest => if y.order ≤ x.order then y :: insertTask x rest else x :: y :: rest

/-- `sorted(tasks, key=lambda t: t.get("order", 0))` — stable ascending sort. -/
def sortTasks (tasks : List TaskRec) : List TaskRec :=
  tasks.foldl (fun acc t => insertTask t acc) []

/-- Default memory prompt from `_inject_memory_tasks`. -/
def defaultMemoryPrompt : String :=
  "You are the memory governor. Your ONLY job is to produce a " ++
  "short, factual summary of prior task outputs for the next agent. " ++
  "Do NOT call any tools — you have none. Do NOT add instructions, " ++
  "meta-commentary, or workflow rules. Just summarize the salient " ++
  "facts, decisions, assumptions, and open questions from earlier " ++
  "outputs in a concise paragraph."

/-- The memory prompt after the objective suffix is appended
(`if objective:` branch). -/
def memoryPromptFor (memoryPrompt : Option String) (objective : String) : String :=
  let prompt := match memoryPrompt with
    | some p => if p = "" then defaultMemoryPrompt else p
    | none => defaultMemoryPrompt
  if objective = "" then prompt
  else
    prompt ++ "\n\nThe user\x27s original objective is: \"" ++ objective ++ "\"\n" ++
    "Keep your summary focused on what is relevant to this objective."

/-- `if idx > 0 and prev_real_task_id:` — the injection guard (`none` is
the initial `None`; Python treats the empty string as falsy, hence the
explicit `p ≠ ""` test). -/
def injectCond (idx : Nat) (prevReal : Option String) : Bool :=
  idx > 0 && (match prevReal with
    | some p => p ≠ ""
    | none => false)

/-- The synthetic "Memory Summary" task dict built inside the injection
loop: id `task-memory-{order}`, the summarization prompt scoped to the
following task's name, the memory agent, and the previous real task as
sole context. -/
def memorySummaryTask (memoryAgentId prompt : String) (order : Int)
    (prevId nextName : String) : TaskRec :=
  { id := "task-memory-" ++ toString order
    name := "Memory Summary"
    description := prompt ++ "\n\nSummarize context for: " ++
      (if nextName = "" then "next task" else nextName)
    expectedOutput := "Concise summary of relevant context for the next task."
    agentId := memoryAgentId
    order := order
    contextTasks := [prevId] }

/-- The loop body of `_inject_memory_tasks`: walks the sorted task list
carrying the enumeration index `idx`, the running `order` counter, and
`prev_real_task_id`. -/
def injectGo (memoryAgentId prompt : String) :
    List TaskRec → Nat → Int → Option String → List TaskRec
  | [], _, _, _ => []
  | task :: rest, idx, order, prevReal =>
    if injectCond idx prevReal then
      memorySummaryTask memoryAgentId prompt order (prevReal.getD "") task.name ::
      { task with
        contextTasks := task.contextTasks ++
          ["task-memory-" ++ toString order]
        order := order + 1 } ::
        injectGo memoryAgentId prompt rest (idx + 1) (order + 2) (some task.id)
    else
      { task with order := order } ::
        injectGo memoryAgentId prompt rest (idx + 1) (order + 1) (some task.id)

/-- `CrewRunner._inject_memory_tasks`. `memoryAgentId = none` or `some ""`
is Python-falsy and disables injection; plans of at most two tasks are
returned (sorted) without injection. -/
def injectMemoryTasks (tasks : List TaskRec) (memoryAgentId : Option String)
    (memoryPrompt : Option String) (objective : String) : List TaskRec :=
  match memoryAgentId with
  | none => tasks
  | some m =>
    if m = "" then tasks
    else
      let sortedTasks := sortTasks tasks
      if sortedTasks.length ≤ 2 then sortedTasks
      else
        let prompt := memoryPromptFor memoryPrompt objective
        injectGo m prompt sortedTasks 0 1 none

/-- Synthetic compression tasks are the injected "Memory Summary" tasks. -/
def memoryTaskCount (tasks : List TaskRec) : Nat :=
  (tasks.filter (fun t => t.name = "Memory Summary")).length

def memoryTasksOf (tasks : List TaskRec) : List TaskRec :=
  tasks.filter (fun t => t.name = "Memory Summary")

/-! ## Agent identifier resolution and the empty-plan fallback
(`conversations._run_crew_inner`, the `_resolve` closure and the
`if not planned_agents` guard) -/

/-- The fields of a candidate agent dict that `_resolve` inspects. -/
structure AgentRef where
  id : String
  name : String
  role : String
  deriving Repr, DecidableEq

/-- `norm = raw_id.lower().replace("-", " ").replace("_", " ")`. -/
def normalizeRef (raw : String) : String :=
  pyReplace (pyReplace (pyLower raw) "-" " ") "_" " "

/-- The `_resolve` closure: exact `_id` match first, then the normalized
substring pass over `_id`, `name`, and `role` of each candidate (first
match wins). Returns `none` when nothing matches. -/
def resolveAgentRef (agents : List AgentRef) (raw : String) : Option String :=
  if agents.any (fun a => a.id = raw) then some raw
  else
    let norm := normalizeRef raw
    let hit := agents.find? (fun a =>
      strHasSub (pyLower a.id) norm || strHasSub norm (pyLower a.id) ||
      strHasSub (pyLower a.name) norm || strHasSub (pyLower a.role) norm)
    hit.map (·.id)

/-- `resolved_ids`: every plan agent reference that resolves to a truthy id
(`if r:` drops `None` and the empty string). -/
def resolvedAgentIds (agents : List AgentRef) (planAgents : List String) : List String :=
  planAgents.filterMap (fun raw =>
    match resolveAgentRef agents raw with
    | some r => if r = "" then none else some r
    | none => none)

/-- `planned_agents = [Agent(**a) for a in agents if a.get("_id") in resolved_ids]`.
(Pydantic validation of well-formed agent dicts succeeds, so the sanitize
branch is the identity here.) -/
def plannedAgentsBase (agents : List AgentRef) (planAgents : List String) : List AgentRef :=
  agents.filter (fun a => (resolvedAgentIds agents planAgents).contains a.id)

/-- The empty-plan guard: `if not planned_agents: planned_agents = all agents`. -/
def finalPlannedAgents (agents : List AgentRef) (planAgents : List String) : List AgentRef :=
  let base := plannedAgentsBase agents planAgents
  if base.isEmpty then agents else base

/-! ## Raw-plan validation (`crew_planner.CrewPlan`) and task assembly
(`conversations._run_crew_inner`, the `planned_tasks` loop) -/

/-- A raw planner task as delivered by the planning oracle; `none` marks a
missing field. `name`, `description`, `expectedOutput` and `agentId` are
required by the `PlannedTask` pydantic model; `order` defaults to 0. -/
structure RawPlannedTask where
  name : Option String
  description : Option String
  expectedOutput : Option String
  agentId : Option String
  order : Option Int
  deriving Repr, DecidableEq

structure PlannedTaskRec where
  name : String
  description : String
  expectedOutput : String
  agentId : String
  order : Int
  deriving Repr, DecidableEq

/-- `PlannedTask` validation: required string fields must be present;
`order` defaults to `0` when absent. -/
def validatePlannedTask (t : RawPlannedTask) : Except String PlannedTaskRec :=
  match t.name, t.description, t.expectedOutput, t.agentId with
  | some n, some d, some e, some a =>
    .ok { name := n, description := d, expectedOutput := e, agentId := a,
          order := t.order.getD 0 }
  | _, _, _, _ => .error "field required"

/-- A raw crew plan as delivered by the planning oracle. -/
structure RawCrewPlan where
  agents : Option (List String)
  tasks : Option (List RawPlannedTask)
  process : Option String
  inputSchema : Option (List String)
  questions : Option (List String)
  deriving Repr, DecidableEq

structure CrewPlanRec where
  agents : List String
  tasks : List PlannedTaskRec
  process : String
  inputSchema : List String
  questions : List String
  deriving Repr, DecidableEq

def sequenceExcept : List (Except String PlannedTaskRec) →
    Except String (List PlannedTaskRec)
  | [] => .ok []
  | .error e :: _ => .error e
  | .ok t :: rest => (sequenceExcept rest).map (t :: ·)

/-- `CrewPlan` validation: `agents` and `tasks` are required fields (a plan
*missing* them is rejected), every task descriptor must validate, and
`process` / `inputSchema` / `questions` take their declared defaults when
absent. An explicitly *empty* task list is accepted. -/
def validateCrewPlan (p : RawCrewPlan) : Except String CrewPlanRec :=
  match p.agents, p.tasks with
  | some ags, some ts =>
    (sequenceExcept (ts.map validatePlannedTask)).map (fun vts =>
      { agents := ags, tasks := vts,
        process := p.process.getD "sequential",
        inputSchema := p.inputSchema.getD [],
        questions := p.questions.getD [] })
  | _, _ => .error "field required"

/-- Task-identifier synthesis:
`f"task-{order}-{task.name}".replace(" ", "-").lower()`. -/
def synthTaskId (order : Int) (name : String) : String :=
  pyLower (pyReplace ("task-" ++ toString order ++ "-" ++ name) " " "-")

/-- The `planned_tasks` assembly loop of `_run_crew_inner`: 1-based
enumeration, per-task agent resolution with fallback to the first planned
agent, synthesized ids, and the linear context chain (`agentId = ""` stands
for Python `None`). -/
def assembleTasksGo (agents : List AgentRef) (fallbackId : Option String) :
    List PlannedTaskRec → Int → Option String → List TaskRec
  | [], _, _ => []
  | t :: rest, order, prevId =>
    let rid := match resolveAgentRef agents t.agentId with
      | some r => if r = "" then fallbackId else some r
      | none => fallbackId
    let taskId := synthTaskId order t.name
    let contextTasks := match prevId with
      | some p => if p = "" then [] else [p]
      | none => []
    { id := taskId, name := t.name, description := t.description,
      expectedOutput := t.expectedOutput,
      agentId := (rid.getD (fallbackId.getD "")),
      order := order, contextTasks := contextTasks } ::
      assembleTasksGo agents fallbackId rest (order + 1) (some taskId)

/-- `planned_tasks` for a validated plan: the loop above started at order 1
with no predecessor; the fallback agent is the first planned agent. -/
def assembledTasks (agents : List AgentRef) (planAgents : List String)
    (tasks : List PlannedTaskRec) : List TaskRec :=
  let planned := finalPlannedAgents agents planAgents
  let fallbackId := planned.head?.map (·.id)
  assembleTasksGo agents fallbackId tasks 1 none

/-! ## Narration stream parsing (`CrewRunner.run_with_streaming`)

The raw CrewAI stdout narration is consumed line by line.  The embedding
reproduces, per line: ANSI stripping, `strip()`, "Agent:" speaker tracking,
the task-stage branch, the memory-agent suppression branch, `Final Answer:`
block buffering, boundary-marker handling with content-hash deduplication,
and the residual flush after the loop.  `emitted_hashes` stores
`hash(content)`; the embedding stores the content itself (an injective
hash — a Python hash collision could only suppress *more* emissions). -/

/-- One step of stripping `\x1b\[[0-9;]*m` escape sequences, as a left fold:
`none` mode is plain text, `some buf` means a partial escape `buf` is being
scanned (buffered chars are re-emitted verbatim if the escape never closes
with `m`, matching `re.sub`, which leaves unmatched text untouched). -/
def ansiStep : List Char × Option (List Char) → Char → List Char × Option (List Char)
  | (out, none), c => if c = '\x1b' then (out, some [c]) else (out ++ [c], none)
  | (out, some buf), c =>
    if buf = ['\x1b'] then
      if c = '[' then (out, some (buf ++ [c]))
      else if c = '\x1b' then (out ++ buf, some [c])
      else (out ++ buf ++ [c], none)
    else
      if c.isDigit || c = ';' then (out, some (buf ++ [c]))
      else if c = 'm' then (out, none)
      else if c = '\x1b' then (out ++ buf, some [c])
      else (out ++ buf ++ [c], none)

/-- `ansi_re.sub("", line)`. -/
def ansiStripStr (s : String) : String :=
  let res := s.toList.foldl ansiStep ([], none)
  String.mk (res.1 ++ (res.2.getD []))

/-- The character class of `box_re`: whitespace and box-drawing glyphs. -/
def isBoxChar (c : Char) : Bool :=
  c.isWhitespace ||
  c ∈ ['╭', '╮', '╰', '╯', '┌', '┐', '└', '┘', '─', '│', '┃', '┼', '═']

/-- `box_re.match(s)`: the whole (nonempty) string is box decoration. -/
def boxMatch (s : String) : Bool :=
  !s.isEmpty && s.toList.all isBoxChar

def isBarChar (c : Char) : Bool := c = '│' || c = '┃' || c = '|'

/-- `re.sub(r"^[│┃|]\s*", "", ·)`. -/
def stripLeadBar (l : List Char) : List Char :=
  match l with
  | c :: rest => if isBarChar c then rest.dropWhile Char.isWhitespace else l
  | [] => []

/-- `re.sub(r"\s*[│┃|]$", "", ·)`. -/
def stripTrailBar (l : List Char) : List Char :=
  (stripLeadBar l.reverse).reverse

/-- The two bar-stripping substitutions followed by `.strip()`. -/
def cleanBars (s : String) : String :=
  pyStrip (String.mk (stripTrailBar (stripLeadBar s.toList)))

/-- `noise_re.match(cleaned)` (case-insensitive, anchored at the start). -/
def noiseMatch (s : String) : Bool :=
  let t := pyLower s
  let callingCase :=
    match t.toList with
    | l =>
      if ("calling".toList).isPrefixOf l then
        let rest := l.drop 7
        let ws := rest.takeWhile Char.isWhitespace
        !ws.isEmpty &&
          (("search_skills".toList).isPrefixOf (rest.drop ws.length) ||
           ("list_available_tools".toList).isPrefixOf (rest.drop ws.length))
      else false
  callingCase ||
  strStarts t "i don\x27t have access to" ||
  strStarts t "i need to call" ||
  strStarts t "let me check" ||
  strStarts t "let me search" ||
  strStarts t "let me call"

/-- `_normalize`: lower-case, underscores and hyphens to spaces, strip. -/
def normalizeLabel (s : String) : String :=
  pyStrip (pyReplace (pyReplace (pyLower s) "_" " ") "-" " ")

/-- `_is_memory_agent` from `run_with_streaming` (also `_is_memory_sender`
in the router, which is textually identical). -/
def isMemoryAgent (memNames : List String) (label : Option String) : Bool :=
  match label with
  | none => false
  | some lab =>
    if lab = "" || memNames.isEmpty then false
    else
      let ll := pyLower lab
      memNames.contains ll || memNames.contains lab ||
      memNames.any (fun n => strHasSub ll n || strHasSub n ll)

/-- `_display_name`: exact normalized role-map match, then normalized
substring match, else the raw label; `None`/empty labels become "Agent". -/
def displayName (roleMap : List (String × String)) (raw : Option String) : String :=
  match raw with
  | none => "Agent"
  | some label =>
    if label = "" then "Agent"
    else
      let norm := normalizeLabel label
      match roleMap.find? (fun kv => normalizeLabel kv.1 = norm) with
      | some kv => kv.2
      | none =>
        match roleMap.find? (fun kv =>
          strHasSub norm (normalizeLabel kv.1) ||
          strHasSub (normalizeLabel kv.1) norm) with
        | some kv => kv.2
        | none => label

/-- A normalized executor event (`event`/`type`/`agent`/`content`; the
wall-clock timestamp field is outside the embedding). -/
structure StreamEvent where
  event : String
  type : String
  agent : String
  content : String
  deriving Repr, DecidableEq

/-- Configuration computed before the streaming loop: memory-agent name
variants, the role→display map, the id→display map, and the visible task
info list (`name`, `agent_id`). -/
structure NarrationCfg where
  memoryNames : List String
  roleMap : List (String × String)
  nameById : List (String × String)
  taskInfos : List (String × String)
  deriving Repr

/-- Mutable loop state: current speaker, `capturing_final`, `final_lines`,
`emitted_hashes` and `task_index`. -/
structure NarrationState where
  lastAgent : Option String
  capturing : Bool
  finalLines : List String
  emitted : List String
  taskIndex : Nat
  deriving Repr, DecidableEq

def initNarrationState : NarrationState :=
  { lastAgent := none, capturing := false, finalLines := [], emitted := [],
    taskIndex := 0 }

/-- Boundary markers that close a `Final Answer:` block. -/
def isBoundary (text : String) : Bool :=
  strStarts text "Task Completed" || strStarts text "Task Started" ||
  strStarts text "Crew Execution" || strStarts text "╭" || strStarts text "╰"

/-- Closing a block at a boundary: join the buffered lines, emit one
`agent_message` unless the content hash was already emitted. -/
def closeBlock (cfg : NarrationCfg) (st : NarrationState) :
    NarrationState × List StreamEvent :=
  if st.finalLines.isEmpty then ({ st with capturing := false }, [])
  else
    let content := joinWith "\n" st.finalLines
    if st.emitted.contains content then
      ({ st with capturing := false, finalLines := [] }, [])
    else
      ({ st with
          capturing := false,
          finalLines := [],
          emitted := st.emitted ++ [content] },
       [{ event := "agent_message", type := "message",
          agent := displayName cfg.roleMap st.lastAgent, content := content }])

/-- The memory-agent suppression branch: boundaries are still tracked but
nothing is ever emitted. -/
def memoryBranch (st : NarrationState) (text : String) : NarrationState :=
  if strHasSub text "Final Answer:" then
    { st with
        capturing := true,
        finalLines := st.finalLines ++
          (if pyStrip ((strAfterFirst text "Final Answer:").getD "") = "" then []
           else [pyStrip ((strAfterFirst text "Final Answer:").getD "")]) }
  else if st.capturing then
    if isBoundary text then { st with capturing := false, finalLines := [] }
    else if cleanBars text ≠ "" && !boxMatch (cleanBars text) then
      { st with finalLines := st.finalLines ++ [cleanBars text] }
    else st
  else st

/-- The `"Agent:" in text` speaker-tracking update (no `continue`). -/
def updSpeaker (st : NarrationState) (text : String) : NarrationState :=
  match strAfterFirst text "Agent:" with
  | some after =>
    if pyStrip after = "" then st
    else { st with lastAgent := some (pyStrip after) }
  | none => st

/-- One iteration of the streaming `while` loop for one dequeued line. -/
def stepLine (cfg : NarrationCfg) (st : NarrationState) (line : String) :
    NarrationState × List StreamEvent :=
  let text := pyStrip (ansiStripStr line)
  if text = "" then (st, [])
  else
    let st := updSpeaker st text
    if strHasSub text "Task Started" ||
       (strHasSub text "Task:" && strHasSub text "Started") then
      match cfg.taskInfos[st.taskIndex]? with
      | some info =>
        let stageAgent := match cfg.nameById.find? (fun kv => kv.1 = info.2) with
          | some kv => if kv.2 = "" then displayName cfg.roleMap st.lastAgent else kv.2
          | none => displayName cfg.roleMap st.lastAgent
        let evs := if isMemoryAgent cfg.memoryNames (some stageAgent) then []
          else [{ event := "agent_message", type := "thinking",
                  agent := stageAgent,
                  content := "Working on: " ++ info.1 : StreamEvent }]
        ({ st with taskIndex := st.taskIndex + 1 }, evs)
      | none => (st, [])
    else if isMemoryAgent cfg.memoryNames st.lastAgent then
      (memoryBranch st text, [])
    else if strHasSub text "Final Answer:" then
      ({ st with
          capturing := true,
          finalLines := st.finalLines ++
            (if pyStrip ((strAfterFirst text "Final Answer:").getD "") = "" then []
             else [pyStrip ((strAfterFirst text "Final Answer:").getD "")]) }, [])
    else if st.capturing then
      if isBoundary text then closeBlock cfg st
      else if cleanBars text = "" || boxMatch (cleanBars text) then (st, [])
      else if noiseMatch (cleanBars text) then (st, [])
      else ({ st with finalLines := st.finalLines ++ [cleanBars text] }, [])
    else (st, [])

/-- The streaming loop over all narration lines. -/
def runNarrationLoop (cfg : NarrationCfg) (st : NarrationState) :
    List String → NarrationState × List StreamEvent
  | [] => (st, [])
  | l :: rest =>
    let s1 := stepLine cfg st l
    let s2 := runNarrationLoop cfg s1.1 rest
    (s2.1, s1.2 ++ s2.2)

/-- The residual flush after the loop exits. -/
def flushResidual (cfg : NarrationCfg) (st : NarrationState) : List StreamEvent :=
  if st.finalLines.isEmpty then []
  else
    let content := joinWith "\n" st.finalLines
    if st.emitted.contains content then []
    else
      [{ event := "agent_message", type := "message",
         agent := displayName cfg.roleMap st.lastAgent, content := content }]

/-- All events the narration parser emits for a given line sequence. -/
def narrationEvents (cfg : NarrationCfg) (lines : List String) : List StreamEvent :=
  let res := runNarrationLoop cfg initNarrationState lines
  res.2 ++ flushResidual cfg res.1

/-- The contents of the emitted `Final Answer:` message events. -/
def msgContents (evs : List StreamEvent) : List String :=
  evs.filterMap (fun e => if e.type = "message" then some e.content else none)

/-! ## Questions to the user (`conversations._ask_user`) -/

/-- Observable side effects of the session code, in program order.
Wall-clock waiting and the store round-trips themselves are outside the
embedding; what matters is which effects happen and in which order. -/
inductive SessionEffect where
  | wsSend (type sender content : String)
  | persistMsg (sender type content : String)
  | setConvStatus (status : String)
  | createRun
  | setRunStatus (status : String)
  deriving Repr, DecidableEq

/-- `asyncio.wait_for(future, timeout=600)` — the question deadline. -/
def askTimeoutSeconds : Nat := 600

/-- `_ask_user`: emit the question, persist it, set the conversation to
`awaiting_input`, then wait. `answer = some a` models the future resolving
with `a` within the deadline; `none` models the 600-second timeout, which
sends an error and re-raises (`Except.error`). The status only returns to
`active` on a successful answer. -/
def askUser (content : String) (answer : Option String) :
    List SessionEffect × Except Unit String :=
  let base : List SessionEffect :=
    [.wsSend "question" "system" content,
     .persistMsg "system" "question" content,
     .setConvStatus "awaiting_input"]
  match answer with
  | some a => (base ++ [.setConvStatus "active"], .ok a)
  | none => (base ++ [.wsSend "error" "system" "Timed out waiting for answer"],
             .error ())

/-- Every `_ask_user` call site in `_run_crew_inner` wraps the call in
`try: ... except asyncio.TimeoutError: return` — on timeout the whole run
attempt aborts and the continuation (which contains the `create_run` call
and everything after it) never executes. -/
def askPhase (content : String) (answer : Option String)
    (continuation : List SessionEffect) : List SessionEffect :=
  let r := askUser content answer
  match r.2 with
  | .ok _ => r.1 ++ continuation
  | .error _ => r.1

/-! ## Transcript replay on reconnect (`conversation_ws`, replay block) -/

/-- Live-only event types: streamed but never persisted or replayed. -/
def ephemeralWsTypes : List String :=
  ["thinking", "tool_call", "tool_result", "status", "system"]

/-- A persisted conversation message (the metadata dict is modelled by its
three inspected entries; an empty `options` list and `none` stand for the
absent/falsy dict entries). -/
structure StoredMsg where
  sender : String
  type : String
  content : String
  timestamp : String
  isReply : Bool
  options : List String
  selectionType : Option String
  deriving Repr, DecidableEq

/-- A message as replayed over the WebSocket. -/
structure ReplayMsg where
  type : String
  sender : String
  content : String
  timestamp : String
  replayed : Bool
  isReply : Bool
  options : List String
  selectionType : Option String
  deriving Repr, DecidableEq

/-- One iteration of the replay loop: skip empty content and ephemeral
types, map storage types to WS protocol types, and forward question
metadata. -/
def replayOne (m : StoredMsg) : Option ReplayMsg :=
  if m.content = "" then none
  else if ephemeralWsTypes.contains m.type then none
  else
    let wsType :=
      if m.type = "message" then
        if m.sender = "user" then "user_message" else "agent_message"
      else m.type
    some { type := wsType, sender := m.sender, content := m.content,
           timestamp := m.timestamp, replayed := true, isReply := m.isReply,
           options := if wsType = "question" then m.options else [],
           selectionType := if wsType = "question" then m.selectionType else none }

/-- The full replay of a stored transcript to a reconnecting client. -/
def replayMessages (msgs : List StoredMsg) : List ReplayMsg :=
  msgs.filterMap replayOne

/-! ## Inbound-message routing (`conversation_ws`, main receive loop) -/

/-- The agent-config fields `_find_mentioned_agent` and the quick-reply
path read. -/
structure AgentMention where
  name : String
  role : String
  deriving Repr, DecidableEq

/-- One candidate check inside `_find_mentioned_agent`: skip stripped
candidates shorter than 3 characters, otherwise take the candidate when it
occurs (case-insensitively) in the message and is strictly longer than the
best so far. -/
def mentionStep (msgLower : String) (cfg : AgentMention)
    (b : Option AgentMention × Nat) (cand : String) :
    Option AgentMention × Nat :=
  let c := pyStrip cand
  if c = "" || c.length < 3 then b
  else if strHasSub msgLower (pyLower c) && c.length > b.2 then
    (some cfg, c.length)
  else b

/-- `_find_mentioned_agent`: scan every active agent's name and role (in
that order), keep the candidate with the strictly greatest stripped length
among case-insensitive substring matches of at least 3 characters. -/
def findMentionedAgent (activeAgents : List AgentMention) (message : String) :
    Option AgentMention :=
  if activeAgents.isEmpty then none
  else
    let msgLower := pyLower message
    (activeAgents.foldl
      (fun b cfg =>
        mentionStep msgLower cfg (mentionStep msgLower cfg b cfg.name) cfg.role)
      (none, 0)).1

/-- The candidate strings `_find_mentioned_agent` scans per agent, in scan
order. -/
def mentionCands (a : AgentMention) : List String := [a.name, a.role]

/-- Whether one candidate string counts as a mention of the agent inside
`message.lower()`: the stripped candidate has at least 3 characters and
occurs as a substring. -/
def isMention (msgLower cand : String) : Bool :=
  let c := pyStrip cand
  !(c = "" || c.length < 3) && strHasSub msgLower (pyLower c)

/-- Per-connection routing state: outstanding question ids, whether a run
task is in flight, the lead agent, and the active crew agents. -/
structure ConnState where
  pendingIds : List String
  runActive : Bool
  leadAgent : Option AgentMention
  activeCrewAgents : List AgentMention
  deriving Repr, DecidableEq

/-- A parsed inbound WebSocket message. -/
structure Inbound where
  type : String
  content : String
  questionId : Option String
  deriving Repr, DecidableEq

/-- Where the receive loop routes an inbound message. -/
inductive RouteAction where
  | ignored
  | answerQuestions (ids : List String)
  | quickReply (responder : Option AgentMention)
  | startRun (objective : String)
  deriving Repr, DecidableEq

/-- The always-persist-first effect: the stripped user message is appended
to the transcript before any routing happens. -/
def persistOf (msg : Inbound) : List SessionEffect :=
  [.persistMsg "user" (if msg.type = "answer" then "answer" else "message")
    (pyStrip msg.content)]

/-- The quick-reply responder: the mentioned agent, else the lead agent. -/
def responderOf (st : ConnState) (content : String) : Option AgentMention :=
  (findMentionedAgent st.activeCrewAgents content).orElse (fun _ => st.leadAgent)

/-- The body of the main receive loop for one inbound message: `ping` is
ignored; a `user_message`/`answer` with non-empty stripped content is
persisted first and then routed (matching pending question, else all
pending questions, else mid-run quick reply, else post-run quick reply,
else a fresh run); anything else falls through with no action. -/
def handleInbound (st : ConnState) (msg : Inbound) :
    List SessionEffect × RouteAction :=
  if msg.type = "ping" then ([], .ignored)
  else if (msg.type = "user_message" || msg.type = "answer") &&
      pyStrip msg.content ≠ "" then
    if !st.pendingIds.isEmpty then
      match msg.questionId with
      | some qid =>
        if st.pendingIds.contains qid then (persistOf msg, .answerQuestions [qid])
        else (persistOf msg, .answerQuestions st.pendingIds)
      | none => (persistOf msg, .answerQuestions st.pendingIds)
    else if st.runActive then
      (persistOf msg, .quickReply (responderOf st (pyStrip msg.content)))
    else if st.leadAgent.isSome then
      (persistOf msg, .quickReply (responderOf st (pyStrip msg.content)))
    else
      (persistOf msg, .startRun (pyStrip msg.content))
  else ([], .ignored)

/-- Runs created by routing one message. -/
def runsCreated : RouteAction → Nat
  | .startRun _ => 1
  | _ => 0

/-! ## Tool and agent building (`CrewRunner._build_tool` / `_build_agent`) -/

structure ToolCfg where
  name : Option String
  credentialTypes : List String
  enabled : Bool
  deriving Repr, DecidableEq

inductive ToolBuildErr where
  | unknownTool
  | missingCredentials
  deriving Repr, DecidableEq

/-- A materialized tool: bare function, credential-wrapping partial, or an
MCP tool attached to every agent. -/
inductive BuiltTool where
  | plain (name : String)
  | withCredential (name : String) (credType : String)
  | mcp (name : String)
  deriving Repr, DecidableEq

/-- `_build_tool`: unknown names (including a missing `name` key) raise
`ValueError`; tools needing credentials raise `CredentialError` when any
required type is absent from the crew's credential index; otherwise the
tool is returned, wrapped with the primary (first listed) credential. -/
def buildTool (registry credsByType : List String) (t : ToolCfg) :
    Except ToolBuildErr BuiltTool :=
  match t.name with
  | none => .error .unknownTool
  | some n =>
    if !registry.contains n then .error .unknownTool
    else if t.credentialTypes.isEmpty then .ok (.plain n)
    else
      let missing := t.credentialTypes.filter (fun c => !credsByType.contains c)
      if !missing.isEmpty then .error .missingCredentials
      else .ok (.withCredential n (t.credentialTypes.head?.getD ""))

/-- The agent-config fields `_build_agent` reads. -/
structure AgentBuildCfg where
  role : String
  goal : String
  backstory : String
  tools : List ToolCfg
  deriving Repr, DecidableEq

/-- The `SKILL_INSTRUCTION` boilerplate stripped from backstories. -/
def skillBoiler : String :=
  "Before starting any task, use the search_skills tool to find " ++
  "relevant skills. If you are unsure what tools are available, " ++
  "call list_available_tools first. If a skill is found, follow " ++
  "its steps and explicitly show compliance in your output."

/-- The CrewAI `Agent(...)` value `_build_agent` constructs. -/
structure BuiltAgent where
  role : String
  goal : String
  backstory : String
  tools : List BuiltTool
  deriving Repr, DecidableEq

/-- `_build_agent`: build each enabled tool, catching `CredentialError` and
`ValueError` (the agent continues with fewer tools); attach MCP tools; and
strip the skill boilerplate off the backstory. The `Except` return mirrors
Python exception propagation: no branch produces `.error`. -/
def buildAgent (registry credsByType : List String) (cfg : AgentBuildCfg)
    (mcpTools : List String) : Except ToolBuildErr BuiltAgent :=
  let tools := cfg.tools.foldl (fun acc t =>
    if t.enabled then
      match buildTool registry credsByType t with
      | .ok tool => acc ++ [tool]
      | .error _ => acc
    else acc) []
  let backstory :=
    if strStarts cfg.backstory skillBoiler then
      pyStrip (String.mk (cfg.backstory.toList.drop skillBoiler.toList.length))
    else cfg.backstory
  .ok { role := cfg.role, goal := cfg.goal, backstory := backstory,
        tools := tools ++ mcpTools.map BuiltTool.mcp }

/-- The tools that build successfully, in order — what the resulting agent
actually carries (before MCP tools). -/
def successfulTools (registry credsByType : List String)
    (tools : List ToolCfg) : List BuiltTool :=
  (tools.filter (·.enabled)).filterMap
    (fun t => (buildTool registry credsByType t).toOption)

/-! ## Shared concrete examples -/

def exTask1 : TaskRec :=
  { id := "t1", name := "Research", description := "d1", expectedOutput := "e1",
    agentId := "a1", order := 1, contextTasks := [] }

def exTask2 : TaskRec :=
  { id := "t2", name := "Draft", description := "d2", expectedOutput := "e2",
    agentId := "a2", order := 2, contextTasks := ["t1"] }

def exTask3 : TaskRec :=
  { id := "t3", name := "Review", description := "d3", expectedOutput := "e3",
    agentId := "a3", order := 3, contextTasks := ["t2"] }

/-- A 3-task plan run through memory injection with a configured memory
agent. -/
def exInjected : List TaskRec :=
  injectMemoryTasks [exTask1, exTask2, exTask3] (some "agent-mem") none ""

def exAgentA : AgentRef :=
  { id := "agent-analyst", name := "Data Analyst", role := "Senior Data Analyst" }

/-- A raw plan whose task list is present but empty. -/
def c4RawEmpty : RawCrewPlan :=
  { agents := some ["a1"], tasks := some [], process := none,
    inputSchema := none, questions := none }

/-- A continuation standing for everything `_run_crew_inner` does after a
successful crew-selection answer, up to and including run creation. -/
def c6Continuation : List SessionEffect :=
  [.createRun, .setRunStatus "running"]

/-- An ephemeral stored message for the C7 witness. -/
def exThinkingMsg : StoredMsg :=
  { sender := "Data Analyst", type := "thinking", content := "Working on: X",
    timestamp := "2024-01-01T00:00:00Z", isReply := false, options := [],
    selectionType := none }

/-- A connection state with a run in flight and no outstanding questions. -/
def exRunningState : ConnState :=
  { pendingIds := [], runActive := true,
    leadAgent := some { name := "Lead Agent", role := "Coordinator" },
    activeCrewAgents := [{ name := "Data Analyst", role := "Senior Data Analyst" }] }

/-- A mid-run user message that mentions an agent by name. -/
def exMentionMsg : Inbound :=
  { type := "user_message", content := "Data Analyst, can you retry?",
    questionId := none }

/-- A minimal narration-parser configuration. -/
def exNarrCfg : NarrationCfg :=
  { memoryNames := [], roleMap := [], nameById := [], taskInfos := [] }

/-- The same `Final Answer:` block fed twice. -/
def exDoubleBlock : List String :=
  ["Final Answer: hello world", "Task Completed",
   "Final Answer: hello world", "Task Completed"]

/-- An agent config with one buildable tool, one tool missing its
credential, and one unknown tool. -/
def exAgentBuildCfg : AgentBuildCfg :=
  { role := "SEO Specialist", goal := "Find gaps", backstory := "",
    tools :=
      [{ name := some "fetch_webpage_content", credentialTypes := [],
         enabled := true },
       { name := some "gsc_performance_lookup", credentialTypes := ["gsc"],
         enabled := true },
       { name := some "mystery_tool", credentialTypes := [], enabled := true }] }

/-! ## Helper lemmas -/

theorem length_insertTask (x : TaskRec) (l : List TaskRec) :
    (insertTask x l).length = l.length + 1 := by
  induction l with
  | nil => rfl
  | cons y rest ih =>
    by_cases h : y.order ≤ x.order
    · simp [insertTask, h, ih]
    · simp [insertTask, h]

theorem length_sortTasks (ts : List TaskRec) :
    (sortTasks ts).length = ts.length := by
  suffices h : ∀ acc : List TaskRec,
      ((ts.foldl (fun acc t => insertTask t acc) acc).length
        = acc.length + ts.length) by
    simpa [sortTasks] using h []
  induction ts with
  | nil => intro acc; simp
  | cons t rest ih =>
    intro acc
    simp only [List.foldl_cons]
    rw [ih (insertTask t acc), length_insertTask]
    simp only [List.length_cons]
    omega

/-! ## C1 — memory injection threshold and count -/

/-- C1, counterexample: for the concrete 3-task plan `exInjected`, the
number of injected synthetic "Memory Summary" tasks is 2, not 1 as the
claim states (the code inserts one before *every* real task except the
first). -/
theorem c1_memory_count_counterexample :
    memoryTaskCount exInjected ≠ 1 ∧ memoryTaskCount exInjected = 2 := by
  decide

/-- C1 (amended): with a configured (non-empty) memory agent, a plan of at
most 2 tasks gets no synthetic task (the sorted tasks are returned
unchanged); a plan of exactly 3 tasks gets exactly **two** synthetic
compression tasks, and the first synthetic task's sole predecessor is task
1's identifier. -/
theorem memory_injection_threshold_amended
    (mem : String) (hmem : mem ≠ "") (mp : Option String) (obj : String) :
    (∀ ts : List TaskRec, ts.length ≤ 2 →
      injectMemoryTasks ts (some mem) mp obj = sortTasks ts) ∧
    (∀ (ts : List TaskRec) (t1 t2 t3 : TaskRec),
      sortTasks ts = [t1, t2, t3] → t1.id ≠ "" → t2.id ≠ "" →
      t1.name ≠ "Memory Summary" → t2.name ≠ "Memory Summary" →
      t3.name ≠ "Memory Summary" →
      memoryTaskCount (injectMemoryTasks ts (some mem) mp obj) = 2 ∧
      (memoryTasksOf (injectMemoryTasks ts (some mem) mp obj)).head?.map
        (·.contextTasks) = some [t1.id]) := by
  constructor
  · intro ts hlen
    have h2 : (sortTasks ts).length ≤ 2 := by rw [length_sortTasks]; exact hlen
    simp only [injectMemoryTasks, if_neg hmem, if_pos h2]
  · intro ts t1 t2 t3 hsort h1 h2 hn1 hn2 hn3
    have hlen : ¬ (sortTasks ts).length ≤ 2 := by rw [hsort]; simp
    simp only [injectMemoryTasks, if_neg hmem, if_neg hlen, hsort]
    simp [injectGo, injectCond, memorySummaryTask, h1, h2, memoryTaskCount,
      memoryTasksOf, hn1, hn2, hn3]

/-- C1 witness: the amended theorem applied to concrete 2- and 3-task
plans. -/
theorem memory_injection_threshold_amended_witness :
    injectMemoryTasks [exTask1, exTask2] (some "agent-mem") none ""
      = sortTasks [exTask1, exTask2] ∧
    memoryTaskCount exInjected = 2 := by
  refine ⟨(memory_injection_threshold_amended "agent-mem" (by decide) none "").1
    [exTask1, exTask2] (by decide), ?_⟩
  exact ((memory_injection_threshold_amended "agent-mem" (by decide) none "").2
    [exTask1, exTask2, exTask3] exTask1 exTask2 exTask3 (by decide) (by decide)
    (by decide) (by decide) (by decide) (by decide)).1

/-! ## C2 — memory injection predecessor handling and order monotonicity -/

/-- The injection loop assigns strictly increasing `order` values starting
at its running counter. -/
theorem injectGo_orders (m p : String) (ts : List TaskRec) :
    ∀ (idx : Nat) (order : Int) (prev : Option String),
      List.Chain' (· < ·) ((injectGo m p ts idx order prev).map (·.order)) ∧
      (∀ t ∈ injectGo m p ts idx order prev, order ≤ t.order) := by
  induction ts with
  | nil => intro idx order prev; simp [injectGo]
  | cons task rest ih =>
    intro idx order prev
    by_cases hinj : injectCond idx prev = true
    · have hrec := ih (idx + 1) (order + 2) (some task.id)
      simp only [injectGo, hinj, if_true, List.map_cons]
      constructor
      · rw [List.chain'_cons']
        refine ⟨by simp [memorySummaryTask], ?_⟩
        rw [List.chain'_cons']
        refine ⟨?_, hrec.1⟩
        intro b hb
        have hbmem : b ∈ (injectGo m p rest (idx + 1) (order + 2)
            (some task.id)).map (·.order) := List.mem_of_mem_head? hb
        obtain ⟨t, ht, rfl⟩ := List.mem_map.mp hbmem
        have := hrec.2 t ht
        omega
      · intro t ht
        simp only [List.mem_cons] at ht
        rcases ht with rfl | rfl | h
        · simp [memorySummaryTask]
        · simp
        · have := hrec.2 t h; omega
    · have hrec := ih (idx + 1) (order + 1) (some task.id)
      simp only [injectGo, hinj, if_false, Bool.false_eq_true, List.map_cons]
      constructor
      · rw [List.chain'_cons']
        refine ⟨?_, hrec.1⟩
        intro b hb
        have hbmem : b ∈ (injectGo m p rest (idx + 1) (order + 1)
            (some task.id)).map (·.order) := List.mem_of_mem_head? hb
        obtain ⟨t, ht, rfl⟩ := List.mem_map.mp hbmem
        have := hrec.2 t ht
        omega
      · intro t ht
        simp only [List.mem_cons] at ht
        rcases ht with rfl | h
        · simp
        · have := hrec.2 t h; omega

/-- C2, counterexample: after injection, the real second task (output
position 2, id `t2`) still lists the previous real task `t1` among its
predecessors — the synthetic task id is appended, the previous real task
is *not* removed. -/
theorem c2_predecessor_counterexample :
    (exInjected[2]?).map (·.contextTasks) = some ["t1", "task-memory-2"] ∧
    (exInjected[1]?).map (·.id) = some "task-memory-2" ∧
    (exInjected[2]?).map (·.id) = some "t2" := by decide

/-- For a tail of real tasks processed with the injection guard active
(`idx ≥ 1`, non-empty previous id, non-empty task ids), the output
alternates synthetic/real: position `2i` holds the Memory Summary for the
`i`-th task (sole predecessor: the previous real task), position `2i+1`
holds the `i`-th real task with the synthetic id appended to its
predecessors and a shifted order. -/
theorem injectGo_pairs (m p : String) :
    ∀ (rest : List TaskRec) (idx : Nat) (order : Int) (prevId : String),
      1 ≤ idx → prevId ≠ "" → (∀ t ∈ rest, t.id ≠ "") →
      (∀ t0 : TaskRec, rest[0]? = some t0 →
        (injectGo m p rest idx order (some prevId))[0]? =
          some (memorySummaryTask m p order prevId t0.name) ∧
        (injectGo m p rest idx order (some prevId))[1]? =
          some { t0 with
            contextTasks := t0.contextTasks ++
              ["task-memory-" ++ toString order],
            order := order + 1 }) ∧
      (∀ (i : Nat) (tp ti : TaskRec),
        rest[i]? = some tp → rest[i + 1]? = some ti →
        (injectGo m p rest idx order (some prevId))[2 * i + 2]? =
          some (memorySummaryTask m p (order + 2 * ((i : Int) + 1))
            tp.id ti.name) ∧
        (injectGo m p rest idx order (some prevId))[2 * i + 3]? =
          some { ti with
            contextTasks := ti.contextTasks ++
              ["task-memory-" ++ toString (order + 2 * ((i : Int) + 1))],
            order := order + 2 * ((i : Int) + 1) + 1 }) := by
  intro rest
  induction rest with
  | nil =>
    intro idx order prevId _ _ _
    constructor
    · intro t0 h0
      simp at h0
    · intro i tp ti hp _
      simp at hp
  | cons t rest2 ih =>
    intro idx order prevId hidx hprev hids
    have hcond : injectCond idx (some prevId) = true := by
      simp [injectCond, hprev]
      omega
    have hout : injectGo m p (t :: rest2) idx order (some prevId) =
        memorySummaryTask m p order prevId t.name ::
        { t with
          contextTasks := t.contextTasks ++
            ["task-memory-" ++ toString order],
          order := order + 1 } ::
        injectGo m p rest2 (idx + 1) (order + 2) (some t.id) := by
      simp only [injectGo, hcond, if_true]
      rfl
    have hid0 : t.id ≠ "" := hids t (List.mem_cons_self _ _)
    have hids2 : ∀ u ∈ rest2, u.id ≠ "" :=
      fun u hu => hids u (List.mem_cons_of_mem _ hu)
    obtain ⟨ihFirst, ihPairs⟩ := ih (idx + 1) (order + 2) t.id (by omega)
      hid0 hids2
    constructor
    · intro t0 h0
      rw [List.getElem?_cons_zero] at h0
      injection h0 with h0
      subst h0
      rw [hout]
      rw [List.getElem?_cons_zero, List.getElem?_cons_succ,
        List.getElem?_cons_zero]
      exact ⟨rfl, rfl⟩
    · intro i tp ti hp hti
      cases i with
      | zero =>
        rw [List.getElem?_cons_zero] at hp
        injection hp with hp
        subst hp
        rw [List.getElem?_cons_succ] at hti
        have hres := ihFirst ti hti
        rw [hout]
        have harith : order + 2 = order + 2 * (((0 : Nat) : Int) + 1) := by
          push_cast
          ring
        constructor
        · have hix : 2 * 0 + 2 = (0 + 1) + 1 := by omega
          rw [hix, List.getElem?_cons_succ, List.getElem?_cons_succ,
            hres.1, harith]
        · have hix : 2 * 0 + 3 = (1 + 1) + 1 := by omega
          rw [hix, List.getElem?_cons_succ, List.getElem?_cons_succ,
            hres.2, harith]
      | succ j =>
        rw [List.getElem?_cons_succ] at hp hti
        have hres := ihPairs j tp ti hp hti
        rw [hout]
        have harith : order + 2 + 2 * ((j : Int) + 1)
            = order + 2 * (((j + 1 : Nat) : Int) + 1) := by
          push_cast
          ring
        constructor
        · have hix : 2 * (j + 1) + 2 = (2 * j + 2) + 1 + 1 := by ring
          rw [hix, List.getElem?_cons_succ, List.getElem?_cons_succ,
            hres.1, harith]
        · have hix : 2 * (j + 1) + 3 = (2 * j + 3) + 1 + 1 := by ring
          rw [hix, List.getElem?_cons_succ, List.getElem?_cons_succ,
            hres.2, harith]

/-- C2 (amended): for every plan with more than 2 tasks and a configured
memory agent (with usable, non-empty task ids), for *every* adjacent pair
`(tp, ti)` of sorted real tasks the injected output holds at position
`2i+1` a synthetic compression task whose sole predecessor is the previous
real task `tp`, and at position `2i+2` the real task `ti` with the
synthetic task *appended* to its predecessor list (the previous real task
remains via the original chain) and its order shifted to `2i+3`; and the
`order` values of the whole output are strictly monotonically
increasing. -/
theorem memory_injection_rewrite_amended
    (mem : String) (hmem : mem ≠ "") (mp : Option String) (obj : String) :
    (∀ ts : List TaskRec, 2 < (sortTasks ts).length →
      List.Chain' (· < ·)
        ((injectMemoryTasks ts (some mem) mp obj).map (·.order))) ∧
    (∀ ts : List TaskRec, 2 < (sortTasks ts).length →
      (∀ t ∈ sortTasks ts, t.id ≠ "") →
      ∀ (i : Nat) (tp ti : TaskRec),
        (sortTasks ts)[i]? = some tp → (sortTasks ts)[i + 1]? = some ti →
        ∃ srec : TaskRec,
          (injectMemoryTasks ts (some mem) mp obj)[2 * i + 1]? = some srec ∧
          srec.name = "Memory Summary" ∧
          srec.contextTasks = [tp.id] ∧
          (injectMemoryTasks ts (some mem) mp obj)[2 * i + 2]? =
            some { ti with
              contextTasks := ti.contextTasks ++ [srec.id],
              order := 2 * (i : Int) + 3 }) := by
  constructor
  · intro ts hlen
    have hlen2 : ¬ (sortTasks ts).length ≤ 2 := by omega
    simp only [injectMemoryTasks, if_neg hmem, if_neg hlen2]
    exact (injectGo_orders mem (memoryPromptFor mp obj) (sortTasks ts) 0 1 none).1
  · intro ts hlen hids i tp ti hp hti
    have hlen2 : ¬ (sortTasks ts).length ≤ 2 := by omega
    simp only [injectMemoryTasks, if_neg hmem, if_neg hlen2]
    cases hs : sortTasks ts with
    | nil =>
      rw [hs] at hlen
      simp at hlen
    | cons t0 rest =>
      rw [hs] at hp hti hids
      have hc0 : injectCond 0 none = false := rfl
      have hout0 : injectGo mem (memoryPromptFor mp obj) (t0 :: rest) 0 1 none =
          { t0 with order := 1 } ::
          injectGo mem (memoryPromptFor mp obj) rest 1 2 (some t0.id) := by
        simp only [injectGo, hc0, Bool.false_eq_true, if_false, ite_false]
        norm_num
      rw [hout0]
      have hid0 : t0.id ≠ "" := hids t0 (List.mem_cons_self _ _)
      obtain ⟨ihFirst, ihPairs⟩ := injectGo_pairs mem (memoryPromptFor mp obj)
        rest 1 2 t0.id (by omega) hid0
        (fun u hu => hids u (List.mem_cons_of_mem _ hu))
      cases i with
      | zero =>
        rw [List.getElem?_cons_zero] at hp
        injection hp with hp
        subst hp
        rw [List.getElem?_cons_succ] at hti
        have h1 := ihFirst ti hti
        refine ⟨memorySummaryTask mem (memoryPromptFor mp obj) 2 t0.id ti.name,
          ?_, rfl, rfl, ?_⟩
        · have hix : 2 * 0 + 1 = 0 + 1 := by omega
          rw [hix, List.getElem?_cons_succ]
          exact h1.1
        · have hix : 2 * 0 + 2 = 1 + 1 := by omega
          rw [hix, List.getElem?_cons_succ]
          exact h1.2
      | succ j =>
        rw [List.getElem?_cons_succ] at hp hti
        have h2 := ihPairs j tp ti hp hti
        refine ⟨memorySummaryTask mem (memoryPromptFor mp obj)
          (2 + 2 * ((j : Int) + 1)) tp.id ti.name, ?_, rfl, rfl, ?_⟩
        · have hix : 2 * (j + 1) + 1 = (2 * j + 2) + 1 := by ring
          rw [hix, List.getElem?_cons_succ]
          exact h2.1
        · have hix : 2 * (j + 1) + 2 = (2 * j + 3) + 1 := by ring
          rw [hix, List.getElem?_cons_succ, h2.2]
          have harith : (2 : Int) + 2 * ((j : Int) + 1) + 1
              = 2 * (((j + 1 : Nat) : Int)) + 3 := by
            push_cast
            ring
          rw [harith]
          rfl

/-- C2 witness: the amended theorem applied to the concrete 3-task plan,
at the first adjacent pair. -/
theorem memory_injection_rewrite_amended_witness :
    List.Chain' (· < ·) (exInjected.map (·.order)) ∧
    (∃ srec : TaskRec, exInjected[1]? = some srec ∧
      srec.name = "Memory Summary" ∧ srec.contextTasks = [exTask1.id] ∧
      exInjected[2]? = some { exTask2 with
        contextTasks := exTask2.contextTasks ++ [srec.id],
        order := 2 * ((0 : Nat) : Int) + 3 }) := by
  have h := memory_injection_rewrite_amended "agent-mem" (by decide) none ""
  constructor
  · exact h.1 [exTask1, exTask2, exTask3] (by decide)
  · exact h.2 [exTask1, exTask2, exTask3] (by decide) (by decide) 0
      exTask1 exTask2 (by decide) (by decide)

/-! ## C3 — empty-resolution fallback -/

/-- C3: whenever identifier resolution over a non-empty candidate set
yields zero usable agents, the assembler falls back to *all* candidates,
and the resulting agent set is never empty. -/
theorem empty_resolution_fallback (agents : List AgentRef)
    (planAgents : List String) (hne : agents ≠ []) :
    finalPlannedAgents agents planAgents ≠ [] ∧
    (resolvedAgentIds agents planAgents = [] →
      finalPlannedAgents agents planAgents = agents) := by
  constructor
  · unfold finalPlannedAgents
    by_cases h : (plannedAgentsBase agents planAgents).isEmpty
    · simpa [h] using hne
    · simp only [h, if_false, Bool.false_eq_true]
      intro hempty
      rw [hempty] at h
      simp at h
  · intro hres
    unfold finalPlannedAgents plannedAgentsBase
    simp [hres]

/-- C3 witness: one candidate, one unresolvable reference. -/
theorem empty_resolution_fallback_witness :
    finalPlannedAgents [exAgentA] ["zzz"] = [exAgentA] ∧
    finalPlannedAgents [exAgentA] ["zzz"] ≠ [] :=
  ⟨(empty_resolution_fallback [exAgentA] ["zzz"] (by decide)).2 (by decide),
   (empty_resolution_fallback [exAgentA] ["zzz"] (by decide)).1⟩

/-! ## C4 — zero-task plans are *not* rejected -/

/-- C4, counterexample: the empty-task raw plan passes `CrewPlan`
validation (no rejection anywhere in the assembler) and the assembled
Plan simply has zero tasks. -/
theorem c4_zero_task_counterexample :
    (validateCrewPlan c4RawEmpty).isOk = true ∧
    validateCrewPlan c4RawEmpty = .ok
      { agents := ["a1"], tasks := [], process := "sequential",
        inputSchema := [], questions := [] } ∧
    assembledTasks [exAgentA] ["a1"] [] = [] := ⟨rfl, rfl, rfl⟩

/-- C4 (amended): a raw plan with an explicitly empty task list is
*accepted* — validation succeeds with defaulted optional fields and the
assembled Plan has zero tasks; only a plan *missing* its task list (or a
task descriptor missing a required field) is rejected by validation, and
a missing `order` is coerced to 0 rather than failing. -/
theorem zero_task_plan_accepted_amended
    (rp : RawCrewPlan) (ags : List String)
    (hags : rp.agents = some ags) (hts : rp.tasks = some []) :
    validateCrewPlan rp = .ok
      { agents := ags, tasks := [], process := rp.process.getD "sequential",
        inputSchema := rp.inputSchema.getD [], questions := rp.questions.getD [] } ∧
    (∀ agents : List AgentRef, assembledTasks agents ags [] = []) ∧
    (∀ rp2 : RawCrewPlan, rp2.tasks = none →
      (validateCrewPlan rp2).isOk = false) ∧
    (∀ t : RawPlannedTask, t.order = none →
      ∀ v, validatePlannedTask t = .ok v → v.order = 0) := by
  refine ⟨?_, ?_, ?_, ?_⟩
  · simp [validateCrewPlan, hags, hts, sequenceExcept, Except.map]
  · intro agents
    simp [assembledTasks, assembleTasksGo]
  · intro rp2 h2
    cases hcase : rp2.agents <;> simp [validateCrewPlan, hcase, h2, Except.isOk, Except.toBool]
  · intro t hord v hv
    unfold validatePlannedTask at hv
    split at hv
    · cases hv
      simp [hord]
    · cases hv

/-- C4 witness: the amended theorem at the concrete empty-task plan. -/
theorem zero_task_plan_accepted_amended_witness :
    validateCrewPlan c4RawEmpty = .ok
      { agents := ["a1"], tasks := [], process := "sequential",
        inputSchema := [], questions := [] } ∧
    assembledTasks [exAgentA] ["a1"] [] = [] := by
  have h := zero_task_plan_accepted_amended c4RawEmpty ["a1"] (by rfl) (by rfl)
  exact ⟨h.1, h.2.1 [exAgentA]⟩

/-! ## C6 — question timeout -/

/-- C6, counterexample: when a question times out, the resulting effect
trace contains the timeout error send but *no* `failed` run-status update
— no Run document exists yet (questions are only asked before
`create_run`), so the claim's "the Run is marked failed" does not happen. -/
theorem c6_timeout_counterexample :
    SessionEffect.setRunStatus "failed" ∉
      askPhase "Clarifying questions:" none c6Continuation ∧
    SessionEffect.wsSend "error" "system" "Timed out waiting for answer" ∈
      askPhase "Clarifying questions:" none c6Continuation := by decide

/-- C6 (amended): a PendingQuestion left unanswered past the fixed
600-second deadline makes the waiting `ask` raise a timeout: an error
event is sent to the client and the run attempt aborts (the continuation,
including run creation, never executes), so the session loop does not
hang; no Run document is marked failed, because every `ask` happens before
the Run is created. -/
theorem question_timeout_amended (content : String)
    (cont : List SessionEffect) :
    (askUser content none).2 = .error () ∧
    SessionEffect.wsSend "error" "system" "Timed out waiting for answer" ∈
      askPhase content none cont ∧
    (∀ s : String, SessionEffect.setRunStatus s ∉ askPhase content none cont) ∧
    SessionEffect.createRun ∉ askPhase content none cont ∧
    askPhase content none cont = (askUser content none).1 ∧
    askTimeoutSeconds = 600 := by
  refine ⟨rfl, ?_, ?_, ?_, rfl, rfl⟩
  · simp [askPhase, askUser]
  · intro s; simp [askPhase, askUser]
  · simp [askPhase, askUser]

/-- C6 witness: the amended theorem at a concrete question and
continuation. -/
theorem question_timeout_amended_witness :
    (askUser "Pick a crew" none).2 = .error () ∧
    SessionEffect.wsSend "error" "system" "Timed out waiting for answer" ∈
      askPhase "Pick a crew" none c6Continuation ∧
    SessionEffect.createRun ∉ askPhase "Pick a crew" none c6Continuation ∧
    askTimeoutSeconds = 600 := by
  have h := question_timeout_amended "Pick a crew" c6Continuation
  exact ⟨h.1, h.2.1, h.2.2.2.1, h.2.2.2.2.2⟩

/-! ## C7 — ephemeral exclusion on replay -/

/-- If the replay loop emits a message, its WS type is not ephemeral. -/
theorem replayOne_not_ephemeral (m : StoredMsg) (r : ReplayMsg)
    (h : replayOne m = some r) :
    ephemeralWsTypes.contains r.type = false := by
  unfold replayOne at h
  split at h
  · simp at h
  · split at h
    · simp at h
    · rename_i hc he
      rw [Option.some.injEq] at h
      subst h
      by_cases hm : m.type = "message"
      · by_cases hu : m.sender = "user" <;> simp [hm, hu] <;> decide
      · simp only [hm, if_false, ite_false]
        simpa using he

/-- C7: transcript replay contains zero entries of an ephemeral type
(`thinking`, `tool_call`, `tool_result`, `status`, `system`), and every
stored message of an ephemeral type is skipped outright. -/
theorem ephemeral_exclusion_on_replay :
    (∀ msgs : List StoredMsg,
      (replayMessages msgs).filter
        (fun r => ephemeralWsTypes.contains r.type) = []) ∧
    (∀ m : StoredMsg, ephemeralWsTypes.contains m.type = true →
      replayOne m = none) := by
  constructor
  · intro msgs
    induction msgs with
    | nil => rfl
    | cons m rest ih =>
      rw [replayMessages, List.filterMap_cons]
      cases hr : replayOne m with
      | none => simpa [replayMessages] using ih
      | some r =>
        rw [List.filter_cons]
        simp only [replayOne_not_ephemeral m r hr, Bool.false_eq_true,
          if_false, ite_false]
        simpa [replayMessages] using ih
  · intro m hm
    have hmem : m.type ∈ ephemeralWsTypes := by simpa using hm
    unfold replayOne
    by_cases hc : m.content = "" <;> simp [hc, hmem]

/-- C7 witness: the theorem applied to a concrete thinking message. -/
theorem ephemeral_exclusion_on_replay_witness :
    (replayMessages [exThinkingMsg]).filter
      (fun r => ephemeralWsTypes.contains r.type) = [] ∧
    replayOne exThinkingMsg = none :=
  ⟨ephemeral_exclusion_on_replay.1 [exThinkingMsg],
   ephemeral_exclusion_on_replay.2 exThinkingMsg (by decide)⟩

/-! ## C8 — single active run and the quick-reply mention rule -/

/-- A matching candidate's stripped length is at least 3. -/
theorem isMention_length (msgLower cand : String)
    (h : isMention msgLower cand = true) : 3 ≤ (pyStrip cand).length := by
  unfold isMention at h
  simp only [Bool.and_eq_true, Bool.not_eq_true', Bool.or_eq_false_iff,
    decide_eq_false_iff_not] at h
  obtain ⟨⟨_, h2⟩, _⟩ := h
  omega

/-- One `mentionStep` either keeps the state (when the candidate does not
match, or matches but is not strictly longer) or records the candidate's
agent with the candidate's stripped length. -/
theorem mentionStep_cases (msgLower : String) (cfg : AgentMention)
    (b : Option AgentMention × Nat) (cand : String) :
    (mentionStep msgLower cfg b cand = b ∧
      (isMention msgLower cand = false ∨ (pyStrip cand).length ≤ b.2)) ∨
    (mentionStep msgLower cfg b cand = (some cfg, (pyStrip cand).length) ∧
      isMention msgLower cand = true ∧ b.2 < (pyStrip cand).length) := by
  unfold mentionStep isMention
  by_cases h1 : pyStrip cand = "" ∨ (pyStrip cand).length < 3
  · left
    have h1b : (decide (pyStrip cand = "") || decide ((pyStrip cand).length < 3)) = true := by
      rcases h1 with h | h <;> simp [h]
    refine ⟨by simp [h1b], Or.inl ?_⟩
    simp [h1b]
  · have h1b : (decide (pyStrip cand = "") || decide ((pyStrip cand).length < 3)) = false := by
      push_neg at h1
      simp [h1.1, h1.2]
    by_cases h2 : strHasSub msgLower (pyLower (pyStrip cand)) = true
    · by_cases h3 : b.2 < (pyStrip cand).length
      · right
        refine ⟨?_, ?_, h3⟩
        · simp [h1b, h2, h3]
        · simp [h1b, h2]
      · left
        refine ⟨?_, Or.inr (by omega)⟩
        simp [h1b, h2, h3]
    · left
      have h2f : strHasSub msgLower (pyLower (pyStrip cand)) = false := by
        simpa using h2
      refine ⟨?_, Or.inl ?_⟩
      · simp [h1b, h2f]
      · simp [h1b, h2f]

/-- The fold state never decreases. -/
theorem mentionStep_mono (msgLower : String) (cfg : AgentMention)
    (b : Option AgentMention × Nat) (cand : String) :
    b.2 ≤ (mentionStep msgLower cfg b cand).2 := by
  rcases mentionStep_cases msgLower cfg b cand with ⟨heq, _⟩ | ⟨heq, _, hlt⟩ <;>
    rw [heq]
  omega

/-- A matching candidate is bounded by the state right after its own step. -/
theorem mentionStep_bound (msgLower : String) (cfg : AgentMention)
    (b : Option AgentMention × Nat) (cand : String)
    (h : isMention msgLower cand = true) :
    (pyStrip cand).length ≤ (mentionStep msgLower cfg b cand).2 := by
  rcases mentionStep_cases msgLower cfg b cand with ⟨heq, hor⟩ | ⟨heq, _, _⟩
  · rcases hor with hfalse | hle
    · rw [h] at hfalse; cases hfalse
    · rw [heq]; omega
  · rw [heq]

/-- Invariant of the `_find_mentioned_agent` fold: every matching
candidate of the scanned agents is bounded by the running best length, and
the state is either untouched or holds a scanned agent witnessed by a
matching candidate of exactly the best length. -/
theorem mentionFold_spec (msgLower : String) (agents : List AgentMention) :
    ∀ start : Option AgentMention × Nat,
      (∀ a ∈ agents, ∀ cand ∈ mentionCands a,
        isMention msgLower cand = true →
          (pyStrip cand).length ≤ (agents.foldl
            (fun b cfg => mentionStep msgLower cfg
              (mentionStep msgLower cfg b cfg.name) cfg.role) start).2) ∧
      ((agents.foldl (fun b cfg => mentionStep msgLower cfg
          (mentionStep msgLower cfg b cfg.name) cfg.role) start) = start ∨
        ∃ a ∈ agents,
          (agents.foldl (fun b cfg => mentionStep msgLower cfg
            (mentionStep msgLower cfg b cfg.name) cfg.role) start).1 = some a ∧
          ∃ cand ∈ mentionCands a, isMention msgLower cand = true ∧
            (pyStrip cand).length = (agents.foldl
              (fun b cfg => mentionStep msgLower cfg
                (mentionStep msgLower cfg b cfg.name) cfg.role) start).2) ∧
      start.2 ≤ (agents.foldl (fun b cfg => mentionStep msgLower cfg
        (mentionStep msgLower cfg b cfg.name) cfg.role) start).2 := by
  induction agents with
  | nil => intro start; exact ⟨by simp, Or.inl rfl, le_refl _⟩
  | cons cfg rest ih =>
    intro start
    simp only [List.foldl_cons]
    obtain ⟨ihA, ihB, ihC⟩ := ih (mentionStep msgLower cfg
      (mentionStep msgLower cfg start cfg.name) cfg.role)
    have hmono1 : start.2 ≤ (mentionStep msgLower cfg start cfg.name).2 :=
      mentionStep_mono msgLower cfg start cfg.name
    have hmono2 : (mentionStep msgLower cfg start cfg.name).2 ≤
        (mentionStep msgLower cfg
          (mentionStep msgLower cfg start cfg.name) cfg.role).2 :=
      mentionStep_mono msgLower cfg _ cfg.role
    refine ⟨?_, ?_, by omega⟩
    · intro a ha cand hcand hm
      rcases List.mem_cons.mp ha with rfl | hrest
      · simp only [mentionCands, List.mem_cons, List.mem_singleton,
          List.not_mem_nil, or_false] at hcand
        rcases hcand with rfl | rfl
        · have := mentionStep_bound msgLower a start a.name hm
          omega
        · have := mentionStep_bound msgLower a
            (mentionStep msgLower a start a.name) a.role hm
          omega
      · exact ihA a hrest cand hcand hm
    · rcases ihB with heq | ⟨a, ha, hsome, cand, hcand, hm, hlen⟩
      · rw [heq]
        rcases mentionStep_cases msgLower cfg
            (mentionStep msgLower cfg start cfg.name) cfg.role with
          ⟨heq2, _⟩ | ⟨heq2, hm2, _⟩
        · rw [heq2]
          rcases mentionStep_cases msgLower cfg start cfg.name with
            ⟨heq1, _⟩ | ⟨heq1, hm1, _⟩
          · rw [heq1]; exact Or.inl rfl
          · refine Or.inr ⟨cfg, List.mem_cons_self _ _, ?_⟩
            rw [heq1]
            exact ⟨rfl, cfg.name, by simp [mentionCands], hm1, rfl⟩
        · refine Or.inr ⟨cfg, List.mem_cons_self _ _, ?_⟩
          rw [heq2]
          exact ⟨rfl, cfg.role, by simp [mentionCands], hm2, rfl⟩
      · exact Or.inr ⟨a, List.mem_cons_of_mem _ ha, hsome, cand, hcand, hm, hlen⟩

/-- The mention rule, characterized: `_find_mentioned_agent` returns
`none` exactly when no candidate matches, and otherwise an agent from the
active list witnessed by a matching candidate of maximal stripped length
(longest-match-wins). -/
theorem findMentionedAgent_spec (agents : List AgentMention) (message : String) :
    (findMentionedAgent agents message = none →
      ∀ a ∈ agents, ∀ cand ∈ mentionCands a,
        isMention (pyLower message) cand = false) ∧
    (∀ b, findMentionedAgent agents message = some b →
      b ∈ agents ∧ ∃ cand ∈ mentionCands b,
        isMention (pyLower message) cand = true ∧
        ∀ a ∈ agents, ∀ c ∈ mentionCands a,
          isMention (pyLower message) c = true →
            (pyStrip c).length ≤ (pyStrip cand).length) := by
  by_cases hemp : agents.isEmpty
  · have hnil : agents = [] := by simpa using hemp
    subst hnil
    constructor
    · intro _ a ha; cases ha
    · intro b hb
      rw [findMentionedAgent] at hb
      simp at hb
  · obtain ⟨hA, hB, _⟩ := mentionFold_spec (pyLower message) agents (none, 0)
    have hres : findMentionedAgent agents message =
        (agents.foldl (fun b cfg => mentionStep (pyLower message) cfg
          (mentionStep (pyLower message) cfg b cfg.name) cfg.role)
          (none, 0)).1 := by
      rw [findMentionedAgent, if_neg hemp]
    constructor
    · intro hnone a ha cand hcand
      cases hval : isMention (pyLower message) cand
      · rfl
      · exfalso
        rcases hB with heq | ⟨a2, _, hsome, _, _, _, _⟩
        · have hzero : (agents.foldl (fun b cfg => mentionStep (pyLower message)
              cfg (mentionStep (pyLower message) cfg b cfg.name) cfg.role)
              ((none : Option AgentMention), 0)).2 = 0 := by rw [heq]
          have hle := hA a ha cand hcand hval
          have h3 := isMention_length (pyLower message) cand hval
          omega
        · rw [hres, hsome] at hnone; cases hnone
    · intro b hb
      rcases hB with heq | ⟨a2, ha2, hsome, cand, hcand, hm, hlen⟩
      · exfalso
        rw [hres, heq] at hb
        cases hb
      · rw [hres, hsome, Option.some.injEq] at hb
        subst hb
        refine ⟨ha2, cand, hcand, hm, ?_⟩
        intro a ha c hc hmc
        have := hA a ha c hc hmc
        omega

/-- C8: while a run task is in flight, no inbound message ever creates a
second run; a `user_message` with no outstanding questions is routed to
the synchronous quick-reply path, addressed to the mentioned agent
(longest substring match among names and roles, characterized in the last
conjunct) or else the lead agent. -/
theorem single_active_run (st : ConnState) (msg : Inbound)
    (hrun : st.runActive = true) :
    runsCreated (handleInbound st msg).2 = 0 ∧
    (st.pendingIds = [] → msg.type = "user_message" →
      pyStrip msg.content ≠ "" →
      (handleInbound st msg).2 = .quickReply
        (responderOf st (pyStrip msg.content))) ∧
    (∀ b, findMentionedAgent st.activeCrewAgents (pyStrip msg.content) = some b →
      b ∈ st.activeCrewAgents ∧ ∃ cand ∈ mentionCands b,
        isMention (pyLower (pyStrip msg.content)) cand = true ∧
        ∀ a ∈ st.activeCrewAgents, ∀ c ∈ mentionCands a,
          isMention (pyLower (pyStrip msg.content)) c = true →
            (pyStrip c).length ≤ (pyStrip cand).length) := by
  refine ⟨?_, ?_, (findMentionedAgent_spec st.activeCrewAgents
    (pyStrip msg.content)).2⟩
  · unfold handleInbound
    by_cases hping : msg.type = "ping"
    · simp [hping, runsCreated]
    · rw [if_neg hping]
      by_cases hcond : ((msg.type = "user_message" || msg.type = "answer") &&
          pyStrip msg.content ≠ "") = true
      · rw [if_pos hcond]
        by_cases hpend : (!st.pendingIds.isEmpty) = true
        · rw [if_pos hpend]
          cases msg.questionId with
          | none => rfl
          | some q =>
            repeat' split
            all_goals rfl
        · rw [if_neg hpend, if_pos hrun]
          rfl
      · rw [if_neg hcond]
        rfl
  · intro hpend htype hcont
    have hping : ¬ msg.type = "ping" := by rw [htype]; decide
    unfold handleInbound
    rw [if_neg hping]
    have hcond : ((msg.type = "user_message" || msg.type = "answer") &&
        pyStrip msg.content ≠ "") = true := by
      simp [htype, hcont]
    rw [if_pos hcond]
    have hempt : ¬ ((!st.pendingIds.isEmpty) = true) := by simp [hpend]
    rw [if_neg hempt, if_pos hrun]

/-- C8 witness: the theorem at a concrete in-flight state and a message
mentioning "Data Analyst". -/
theorem single_active_run_witness :
    runsCreated (handleInbound exRunningState exMentionMsg).2 = 0 ∧
    (handleInbound exRunningState exMentionMsg).2 = .quickReply
      (some { name := "Data Analyst", role := "Senior Data Analyst" }) := by
  have h := single_active_run exRunningState exMentionMsg (by rfl)
  refine ⟨h.1, ?_⟩
  rw [h.2.1 (by rfl) (by rfl) (by decide)]
  decide

/-! ## C9 — persistence of inbound messages -/

/-- C9, counterexample: a `user_message` whose content strips to empty is
silently dropped — no persistence effect, no routing, no error. -/
theorem c9_silent_drop_counterexample :
    handleInbound exRunningState
      { type := "user_message", content := "   ", questionId := none }
      = ([], .ignored) := by decide

/-- C9 (amended): every inbound `user_message`/`answer` whose content is
non-empty after stripping is persisted to the transcript (the persist
effect is the whole effect trace produced before routing) and is then
routed — never ignored. A whitespace-only message is silently ignored
without being persisted. -/
theorem persist_before_route_amended (st : ConnState) (msg : Inbound)
    (htype : msg.type = "user_message" ∨ msg.type = "answer")
    (hcontent : pyStrip msg.content ≠ "") :
    (handleInbound st msg).1 = persistOf msg ∧
    (handleInbound st msg).2 ≠ .ignored := by
  have hping : ¬ msg.type = "ping" := by
    rcases htype with h | h <;> rw [h] <;> decide
  have hcond : ((msg.type = "user_message" || msg.type = "answer") &&
      pyStrip msg.content ≠ "") = true := by
    rcases htype with h | h <;> simp [h, hcontent]
  unfold handleInbound
  rw [if_neg hping, if_pos hcond]
  refine ⟨?_, ?_⟩
  · repeat' split
    all_goals rfl
  · repeat' split
    all_goals simp

/-- C9 witness: the amended theorem at a concrete mid-run message. -/
theorem persist_before_route_amended_witness :
    (handleInbound exRunningState exMentionMsg).1 = persistOf exMentionMsg ∧
    (handleInbound exRunningState exMentionMsg).2 ≠ .ignored :=
  persist_before_route_amended exRunningState exMentionMsg (Or.inl rfl)
    (by decide)

/-! ## C10 — tool-build failure never fails agent construction -/

/-- The tool-building fold of `_build_agent` appends exactly the enabled
tools whose build succeeds. -/
theorem buildFold_eq (registry credsByType : List String) (tools : List ToolCfg) :
    ∀ acc : List BuiltTool,
      tools.foldl (fun acc t =>
        if t.enabled then
          match buildTool registry credsByType t with
          | .ok tool => acc ++ [tool]
          | .error _ => acc
        else acc) acc = acc ++ successfulTools registry credsByType tools := by
  induction tools with
  | nil => intro acc; simp [successfulTools]
  | cons t rest ih =>
    intro acc
    simp only [List.foldl_cons]
    by_cases he : t.enabled
    · cases hb : buildTool registry credsByType t with
      | ok tool =>
        rw [if_pos he]
        have final : acc ++ successfulTools registry credsByType (t :: rest)
            = (acc ++ [tool]) ++ successfulTools registry credsByType rest := by
          simp [successfulTools, he, hb, Except.toOption]
        rw [final]
        exact ih (acc ++ [tool])
      | error e =>
        rw [if_pos he]
        have final : acc ++ successfulTools registry credsByType (t :: rest)
            = acc ++ successfulTools registry credsByType rest := by
          simp [successfulTools, he, hb, Except.toOption]
        rw [final]
        exact ih acc
    · rw [if_neg he, ih acc]
      simp [successfulTools, he]

/-- C10: `_build_agent` always returns an agent — a failing tool build
(unknown tool name, including a missing name, or a required credential
type absent from the crew's credential set: the exact failure condition is
the iff) is skipped, and the agent carries precisely the successfully
built tools plus the MCP tools. -/
theorem tool_failure_never_fails_agent (registry credsByType : List String)
    (cfg : AgentBuildCfg) (mcpTools : List String) :
    (∃ a : BuiltAgent, buildAgent registry credsByType cfg mcpTools = .ok a ∧
      a.tools = successfulTools registry credsByType cfg.tools ++
        mcpTools.map BuiltTool.mcp) ∧
    (∀ t : ToolCfg, (buildTool registry credsByType t).isOk = false ↔
      (t.name = none ∨ ∃ n, t.name = some n ∧
        (¬ registry.contains n = true ∨
          ∃ c ∈ t.credentialTypes, ¬ credsByType.contains c = true))) := by
  constructor
  · refine ⟨_, rfl, ?_⟩
    simp only [buildAgent]
    rw [buildFold_eq registry credsByType cfg.tools []]
    simp
  · intro t
    unfold buildTool
    cases hn : t.name with
    | none => simp [Except.isOk, Except.toBool]
    | some n =>
      by_cases hr : registry.contains n = true
      · simp only [hr, Bool.not_true, Bool.false_eq_true, if_false, ite_false]
        by_cases hempty : t.credentialTypes.isEmpty
        · have hnil : t.credentialTypes = [] := by simpa using hempty
          simp [hempty, hnil, Except.isOk, Except.toBool]
          simpa using hr
        · simp only [hempty, Bool.false_eq_true, if_false, ite_false]
          by_cases hmiss :
              (t.credentialTypes.filter (fun c => !credsByType.contains c)) = []
          · have hall : ∀ c ∈ t.credentialTypes, credsByType.contains c = true := by
              intro c hc
              have := List.filter_eq_nil_iff.mp hmiss c hc
              simpa using this
            simp only [hmiss, List.isEmpty_nil, Bool.not_true,
              Bool.false_eq_true, if_false, ite_false]
            simp only [Except.isOk, Except.toBool]
            constructor
            · intro h; cases h
            · rintro (h | ⟨n2, hn2, hbad | ⟨c, hc, hcon⟩⟩)
              · exact Option.noConfusion h
              · injection hn2 with heq
                subst heq
                exact absurd hr hbad
              · exact absurd (hall c hc) hcon
          · have hne : ¬ (t.credentialTypes.filter
                (fun c => !credsByType.contains c)).isEmpty = true := by
              simpa using hmiss
            simp only [List.isEmpty_eq_true] at hne
            obtain ⟨c, hc, hcnot⟩ : ∃ c ∈ t.credentialTypes,
                ¬ credsByType.contains c = true := by
              rcases List.exists_mem_of_ne_nil _ hmiss with ⟨c, hcmem⟩
              have := List.mem_filter.mp hcmem
              exact ⟨c, this.1, by simpa using this.2⟩
            have hmissb : ((t.credentialTypes.filter
                (fun c => !credsByType.contains c)).isEmpty) = false := by
              simpa using hmiss
            simp only [hmissb, Bool.not_false, if_true, ite_true]
            simp only [Except.isOk, Except.toBool]
            exact ⟨fun _ => Or.inr ⟨n, rfl, Or.inr ⟨c, hc, hcnot⟩⟩,
              fun _ => by trivial⟩
      · have hrb : registry.contains n = false := by simpa using hr
        simp only [hrb, Bool.not_false, if_true, ite_true]
        simp only [Except.isOk, Except.toBool]
        exact ⟨fun _ => Or.inr ⟨n, rfl, Or.inl hr⟩, fun _ => by trivial⟩

/-- C10 witness: with a concrete registry and credential set, an agent with
one unknown tool and one credential-missing tool is still built, carrying
exactly the one successfully built tool. -/
theorem tool_failure_never_fails_agent_witness :
    (∃ a : BuiltAgent,
      buildAgent ["fetch_webpage_content", "gsc_performance_lookup"] ["openai"]
        exAgentBuildCfg [] = .ok a ∧
      a.tools = successfulTools
        ["fetch_webpage_content", "gsc_performance_lookup"] ["openai"]
        exAgentBuildCfg.tools ++ List.map BuiltTool.mcp []) ∧
    successfulTools ["fetch_webpage_content", "gsc_performance_lookup"]
      ["openai"] exAgentBuildCfg.tools = [BuiltTool.plain "fetch_webpage_content"] :=
  ⟨(tool_failure_never_fails_agent
      ["fetch_webpage_content", "gsc_performance_lookup"] ["openai"]
      exAgentBuildCfg []).1, by decide⟩

/-! ## C5 — idempotent narration dedup -/

theorem updSpeaker_emitted (st : NarrationState) (text : String) :
    (updSpeaker st text).emitted = st.emitted := by
  unfold updSpeaker
  repeat' split
  all_goals rfl

theorem memoryBranch_emitted (st : NarrationState) (text : String) :
    (memoryBranch st text).emitted = st.emitted := by
  unfold memoryBranch
  repeat' split
  all_goals rfl

theorem msgContents_append (a b : List StreamEvent) :
    msgContents (a ++ b) = msgContents a ++ msgContents b := by
  unfold msgContents
  exact List.filterMap_append a b _

/-- Closing a block either emits nothing (empty buffer or duplicate hash)
or exactly one fresh message whose content is recorded. -/
theorem closeBlock_spec (cfg : NarrationCfg) (st : NarrationState) :
    (msgContents (closeBlock cfg st).2 = [] ∧
      (closeBlock cfg st).1.emitted = st.emitted) ∨
    (∃ c, msgContents (closeBlock cfg st).2 = [c] ∧ c ∉ st.emitted ∧
      (closeBlock cfg st).1.emitted = st.emitted ++ [c]) := by
  unfold closeBlock
  by_cases h1 : st.finalLines.isEmpty
  · left
    simp [h1, msgContents]
  · rw [if_neg h1]
    by_cases h2 : st.emitted.contains (joinWith "\n" st.finalLines) = true
    · left
      rw [if_pos h2]
      exact ⟨rfl, rfl⟩
    · right
      refine ⟨joinWith "\n" st.finalLines, ?_, by simpa using h2, ?_⟩
      · rw [if_neg h2]
        simp [msgContents]
      · rw [if_neg h2]

/-- One parser step either emits no message and leaves `emitted` unchanged,
or emits exactly one fresh message and appends its content hash. -/
theorem stepLine_spec (cfg : NarrationCfg) (st : NarrationState) (line : String) :
    (msgContents (stepLine cfg st line).2 = [] ∧
      (stepLine cfg st line).1.emitted = st.emitted) ∨
    (∃ c, msgContents (stepLine cfg st line).2 = [c] ∧ c ∉ st.emitted ∧
      (stepLine cfg st line).1.emitted = st.emitted ++ [c]) := by
  unfold stepLine
  by_cases h0 : pyStrip (ansiStripStr line) = ""
  · rw [if_pos h0]
    exact Or.inl ⟨rfl, rfl⟩
  · rw [if_neg h0]
    have hups := updSpeaker_emitted st (pyStrip (ansiStripStr line))
    by_cases hstage : (strHasSub (pyStrip (ansiStripStr line)) "Task Started" ||
        (strHasSub (pyStrip (ansiStripStr line)) "Task:" &&
          strHasSub (pyStrip (ansiStripStr line)) "Started")) = true
    · rw [if_pos hstage]
      cases hinfo : cfg.taskInfos[(updSpeaker st
          (pyStrip (ansiStripStr line))).taskIndex]? with
      | some info =>
        left
        constructor
        · repeat' split
          all_goals simp [msgContents]
        · exact hups
      | none =>
        left
        exact ⟨rfl, hups⟩
    · rw [if_neg hstage]
      by_cases hmem : isMemoryAgent cfg.memoryNames
          (updSpeaker st (pyStrip (ansiStripStr line))).lastAgent = true
      · rw [if_pos hmem]
        left
        exact ⟨rfl, (memoryBranch_emitted _ _).trans hups⟩
      · rw [if_neg hmem]
        by_cases hfa : strHasSub (pyStrip (ansiStripStr line))
            "Final Answer:" = true
        · rw [if_pos hfa]
          left
          exact ⟨rfl, hups⟩
        · rw [if_neg hfa]
          by_cases hcap : (updSpeaker st
              (pyStrip (ansiStripStr line))).capturing = true
          · rw [if_pos hcap]
            by_cases hbound : isBoundary (pyStrip (ansiStripStr line)) = true
            · rw [if_pos hbound]
              rcases closeBlock_spec cfg (updSpeaker st
                  (pyStrip (ansiStripStr line))) with ⟨hm, he⟩ | ⟨c, hm, hf, he⟩
              · exact Or.inl ⟨hm, he.trans hups⟩
              · refine Or.inr ⟨c, hm, ?_, ?_⟩
                · rw [hups] at hf
                  exact hf
                · rw [he, hups]
            · rw [if_neg hbound]
              repeat' split
              all_goals exact Or.inl ⟨rfl, hups⟩
          · rw [if_neg hcap]
            left
            exact ⟨rfl, hups⟩

/-- Invariant of the streaming loop: the emitted message contents are
pairwise distinct, each was fresh at loop entry and is recorded in the
final state, and the emitted set only grows. -/
theorem runLoop_spec (cfg : NarrationCfg) (lines : List String) :
    ∀ st : NarrationState,
      (msgContents (runNarrationLoop cfg st lines).2).Nodup ∧
      (∀ c ∈ msgContents (runNarrationLoop cfg st lines).2,
        c ∉ st.emitted ∧ c ∈ (runNarrationLoop cfg st lines).1.emitted) ∧
      (∀ c ∈ st.emitted, c ∈ (runNarrationLoop cfg st lines).1.emitted) := by
  induction lines with
  | nil =>
    intro st
    refine ⟨by simp [runNarrationLoop, msgContents], ?_, ?_⟩
    · intro c hc
      simp [runNarrationLoop, msgContents] at hc
    · intro c hc
      simpa [runNarrationLoop] using hc
  | cons l rest ih =>
    intro st
    obtain ⟨ihN, ihF, ihM⟩ := ih (stepLine cfg st l).1
    have hstep := stepLine_spec cfg st l
    simp only [runNarrationLoop, msgContents_append]
    rcases hstep with ⟨hm, he⟩ | ⟨c, hm, hfresh, he⟩
    · rw [hm]
      simp only [List.nil_append]
      refine ⟨ihN, ?_, ?_⟩
      · intro d hd
        have := ihF d hd
        rw [he] at this
        exact this
      · intro d hd
        exact ihM d (by rw [he]; exact hd)
    · rw [hm]
      simp only [List.singleton_append]
      have hcin : c ∈ (stepLine cfg st l).1.emitted := by
        rw [he]
        simp
      refine ⟨?_, ?_, ?_⟩
      · rw [List.nodup_cons]
        refine ⟨?_, ihN⟩
        intro hcdup
        have := (ihF c hcdup).1
        exact this hcin
      · intro d hd
        rcases List.mem_cons.mp hd with rfl | hd2
        · exact ⟨hfresh, ihM d hcin⟩
        · have h2 := ihF d hd2
          constructor
          · intro hdin
            exact h2.1 (by rw [he]; exact List.mem_append_left _ hdin)
          · exact h2.2
      · intro d hd
        exact ihM d (by rw [he]; exact List.mem_append_left _ hd)

/-- The residual flush emits at most one message, and only one whose
content hash is not already recorded. -/
theorem flush_spec (cfg : NarrationCfg) (st : NarrationState) :
    msgContents (flushResidual cfg st) = [] ∨
    ∃ c, msgContents (flushResidual cfg st) = [c] ∧ c ∉ st.emitted := by
  unfold flushResidual
  by_cases h1 : st.finalLines.isEmpty
  · left
    simp [h1, msgContents]
  · rw [if_neg h1]
    by_cases h2 : st.emitted.contains (joinWith "\n" st.finalLines) = true
    · left
      rw [if_pos h2]
      rfl
    · right
      refine ⟨joinWith "\n" st.finalLines, ?_, by simpa using h2⟩
      rw [if_neg h2]
      simp [msgContents]

/-- C5: the narration parser emits at most one `agent_message` per
distinct `Final Answer:` block content (the emitted contents are pairwise
distinct, for every configuration and line sequence), and feeding the
exact same block twice yields exactly one emitted message. -/
theorem narration_dedup :
    (∀ (cfg : NarrationCfg) (lines : List String),
      (msgContents (narrationEvents cfg lines)).Nodup) ∧
    msgContents (narrationEvents exNarrCfg exDoubleBlock) = ["hello world"] := by
  constructor
  · intro cfg lines
    unfold narrationEvents
    obtain ⟨hN, hF, _⟩ := runLoop_spec cfg lines initNarrationState
    rcases flush_spec cfg (runNarrationLoop cfg initNarrationState lines).1 with
      hfl | ⟨c, hfl, hfresh⟩
    · rw [msgContents_append, hfl, List.append_nil]
      exact hN
    · rw [msgContents_append, hfl]
      rw [List.nodup_append]
      refine ⟨hN, List.nodup_singleton c, ?_⟩
      intro d hd hdc
      rcases List.mem_singleton.mp hdc with rfl
      exact hfresh (hF d hd).2
  · decide

/-- C5 witness: the general dedup theorem at the concrete double block. -/
theorem narration_dedup_witness :
    (msgContents (narrationEvents exNarrCfg exDoubleBlock)).Nodup :=
  narration_dedup.1 exNarrCfg exDoubleBlock

end ContentGapCrew
